import Mathlib

/-!
Verification of the `config` package of `cloud-nuke`: the filter-rule
data model, the `ShouldInclude` decision procedure, and the two
configuration loaders (`GetConfig` compiling after unmarshalling via
`appendRegex`, and the loader compiling during unmarshalling via
`Expression.UnmarshalText`).

A compiled Go `regexp.Regexp` is modelled extensionally by its
`MatchString` behaviour, i.e. as a function `String → Bool`.  Go's
`regexp.Compile` is external library code, so compilation is an
abstract parameter `compile : String → Except String Regexp`
(`Except.error` models the `(nil, err)` return, `Except.ok` the
successfully compiled expression).  The file read and the generic YAML
decoding are likewise external; the loaders are modelled from the point
where the resolved scalar values (four lists of pattern strings) are in
hand, which is exactly the data of Go's `RawConfig` and is determined
by the deterministic generic parse of the file content.  The
`UnmarshalText`-based loader additionally re-parses each resolved
scalar as a standalone YAML document before compiling it — a second,
fallible external library call, abstracted as a separate parameter
`unmarshal : String → Except String String` so that its error path is
kept.
-/

/-- Extensional model of a compiled `regexp.Regexp`: its matching
behaviour on strings. -/
def Regexp : Type := String → Bool

/-- Model of Go's `re.MatchString(name)`. -/
def MatchString (re : Regexp) (name : String) : Bool := re name

/-- Model of `matchesInclude`: iterate over the compiled include
expressions and return `true` on the first match; `false` if none
matches. -/
def matchesInclude (name : String) : List Regexp → Bool
  | [] => false
  | re :: rest =>
    if MatchString re name then true else matchesInclude name rest

/-- Model of `matchesExclude`: iterate over the compiled exclude
expressions and return `false` on the first match; `true` if none
matches. -/
def matchesExclude (name : String) : List Regexp → Bool
  | [] => true
  | re :: rest =>
    if MatchString re name then false else matchesExclude name rest

/-- Model of `ShouldInclude`: when include rules exist, the name must
match one of them and may be vetoed by an exclude match; with only
exclude rules, the name is included unless excluded; with no rules at
all, the name is included. -/
def ShouldInclude (name : String) (includeREs excludeNamesREs : List Regexp) :
    Bool :=
  if includeREs.length > 0 then
    if matchesInclude name includeREs then
      matchesExclude name excludeNamesREs
    else
      false
  else if excludeNamesREs.length > 0 then
    matchesExclude name excludeNamesREs
  else
    true

/-- Model of `rawFilterRule`: the pattern strings of one `names_regex`
key of the raw config file.  An omitted key unmarshals to Go's zero
value, the empty list. -/
structure rawFilterRule where
  NamesRE : List String
  deriving Repr, DecidableEq

/-- Model of `rawResourceType`: the raw include and exclude rules of
one resource category. -/
structure rawResourceType where
  IncludeRule : rawFilterRule
  ExcludeRule : rawFilterRule
  deriving Repr, DecidableEq

/-- Model of `RawConfig`: the raw config file after generic YAML
decoding, one `rawResourceType` per category. -/
structure RawConfig where
  S3 : rawResourceType
  IAMUsers : rawResourceType
  deriving Repr, DecidableEq

/-- Model of `FilterRule`: a list of compiled expressions. -/
structure FilterRule where
  NamesRE : List Regexp

/-- Model of `ResourceType`: compiled include and exclude rules. -/
structure ResourceType where
  IncludeRule : FilterRule
  ExcludeRule : FilterRule

/-- Model of `Config`: the parsed configuration passed around. -/
structure Config where
  S3 : ResourceType
  IAMUsers : ResourceType

/-- Model of `appendRegex`: compile each pattern in order, appending
the compiled expression to the accumulated list, and abort with the
compiler's error at the first pattern that fails to compile. -/
def appendRegex (compile : String → Except String Regexp)
    (configNamesRE : List Regexp) : List String → Except String (List Regexp)
  | [] => Except.ok configNamesRE
  | pattern :: rest =>
    match compile pattern with
    | Except.error e => Except.error e
    | Except.ok re => appendRegex compile (configNamesRE ++ [re]) rest

/-- Model of `GetConfig` (the raw-then-compiled loader): starting from
the zero-valued `configObj`, fill the four (category × direction)
slots in order via `appendRegex`, returning `nil` and the error as
soon as one slot fails. -/
def GetConfig (compile : String → Except String Regexp)
    (rawConfig : RawConfig) : Except String Config :=
  match appendRegex compile [] rawConfig.S3.IncludeRule.NamesRE with
  | Except.error e => Except.error e
  | Except.ok s3inc =>
    match appendRegex compile [] rawConfig.S3.ExcludeRule.NamesRE with
    | Except.error e => Except.error e
    | Except.ok s3exc =>
      match appendRegex compile [] rawConfig.IAMUsers.IncludeRule.NamesRE with
      | Except.error e => Except.error e
      | Except.ok iamInc =>
        match appendRegex compile [] rawConfig.IAMUsers.ExcludeRule.NamesRE with
        | Except.error e => Except.error e
        | Except.ok iamExc =>
          Except.ok
            { S3 := { IncludeRule := { NamesRE := s3inc },
                      ExcludeRule := { NamesRE := s3exc } },
              IAMUsers := { IncludeRule := { NamesRE := iamInc },
                            ExcludeRule := { NamesRE := iamExc } } }

/-- Model of `Expression.UnmarshalText`: the resolved scalar value the
YAML decoder hands over is first re-parsed as a standalone YAML
document into the pattern string by the nested `yaml.Unmarshal` — an
external, fallible library call, abstracted as the parameter
`unmarshal` — and only then compiled; a failure of either step is
propagated as the unmarshalling error. -/
def Expression.UnmarshalText (unmarshal : String → Except String String)
    (compile : String → Except String Regexp)
    (data : String) : Except String Regexp :=
  match unmarshal data with
  | Except.error e => Except.error e
  | Except.ok pattern => compile pattern

/-- Decoding of one `names_regex` list by the `UnmarshalText`-based
loader: each element is unmarshalled via `Expression.UnmarshalText` in
order, and the first element whose unmarshalling fails aborts the
decoding with that error. -/
def unmarshalNamesRE (unmarshal : String → Except String String)
    (compile : String → Except String Regexp) :
    List String → Except String (List Regexp)
  | [] => Except.ok []
  | pattern :: rest =>
    match Expression.UnmarshalText unmarshal compile pattern with
    | Except.error e => Except.error e
    | Except.ok re =>
      match unmarshalNamesRE unmarshal compile rest with
      | Except.error e => Except.error e
      | Except.ok res => Except.ok (re :: res)

/-- Model of the `GetConfig` variant that compiles during YAML
unmarshalling: the four slots are decoded (in document order) via
`Expression.UnmarshalText`, and any failure — of the nested re-parse
or of compilation — aborts the whole load.  The `RawConfig` argument
holds the resolved scalar values of the four slots, which the
deterministic generic parse of the file content determines; identical
file content therefore yields identical arguments to both loaders,
while the per-scalar nested re-parse that only this loader performs is
kept explicit as `unmarshal`. -/
def GetConfigUnmarshalText (unmarshal : String → Except String String)
    (compile : String → Except String Regexp)
    (rawConfig : RawConfig) : Except String Config :=
  match unmarshalNamesRE unmarshal compile rawConfig.S3.IncludeRule.NamesRE with
  | Except.error e => Except.error e
  | Except.ok s3inc =>
    match unmarshalNamesRE unmarshal compile rawConfig.S3.ExcludeRule.NamesRE with
    | Except.error e => Except.error e
    | Except.ok s3exc =>
      match unmarshalNamesRE unmarshal compile
          rawConfig.IAMUsers.IncludeRule.NamesRE with
      | Except.error e => Except.error e
      | Except.ok iamInc =>
        match unmarshalNamesRE unmarshal compile
            rawConfig.IAMUsers.ExcludeRule.NamesRE with
        | Except.error e => Except.error e
        | Except.ok iamExc =>
          Except.ok
            { S3 := { IncludeRule := { NamesRE := s3inc },
                      ExcludeRule := { NamesRE := s3exc } },
              IAMUsers := { IncludeRule := { NamesRE := iamInc },
                            ExcludeRule := { NamesRE := iamExc } } }

/-- The four raw pattern lists of a raw config, in the order the
loaders process them. -/
def rawSlots (rawConfig : RawConfig) : List (List String) :=
  [rawConfig.S3.IncludeRule.NamesRE,
   rawConfig.S3.ExcludeRule.NamesRE,
   rawConfig.IAMUsers.IncludeRule.NamesRE,
   rawConfig.IAMUsers.ExcludeRule.NamesRE]

/-- A literal-matching expression, used as a concrete instance of the
abstract compiled regular expressions in the example configurations
below. -/
def reStr (pattern : String) : Regexp := fun s => s == pattern

/-- A concrete instance of the abstract pattern compiler for the
example configurations: the pattern `(` fails to compile (as it does
under Go's `regexp.Compile`), every other pattern compiles to the
literal matcher `reStr`. -/
def sampleCompile : String → Except String Regexp := fun pattern =>
  if pattern = "(" then Except.error "missing closing )"
  else Except.ok (reStr pattern)

/-- An example raw config: S3 includes `foo` and excludes `bar`, the
IAMUsers sections are omitted (empty lists). -/
def sampleRaw : RawConfig :=
  { S3 := { IncludeRule := { NamesRE := ["foo"] },
            ExcludeRule := { NamesRE := ["bar"] } },
    IAMUsers := { IncludeRule := { NamesRE := [] },
                  ExcludeRule := { NamesRE := [] } } }

/-- An example raw config whose S3 exclude slot holds the invalid
pattern `(`. -/
def sampleRawBad : RawConfig :=
  { S3 := { IncludeRule := { NamesRE := ["foo"] },
            ExcludeRule := { NamesRE := ["("] } },
    IAMUsers := { IncludeRule := { NamesRE := [] },
                  ExcludeRule := { NamesRE := [] } } }

/-- The configuration obtained by loading `sampleRaw` with
`sampleCompile`. -/
def sampleConfig : Config :=
  { S3 := { IncludeRule := { NamesRE := [reStr "foo"] },
            ExcludeRule := { NamesRE := [reStr "bar"] } },
    IAMUsers := { IncludeRule := { NamesRE := [] },
                  ExcludeRule := { NamesRE := [] } } }

/-- A concrete instance of the nested per-scalar re-parse performed by
`Expression.UnmarshalText`, mirroring `gopkg.in/yaml.v2` on these
inputs: the resolved scalar value `[a-z]+` is not a well-formed
standalone YAML document (a flow sequence followed by trailing
content), so re-parsing it fails, while plain words re-parse to
themselves. -/
def sampleUnmarshal : String → Except String String := fun text =>
  if text = "[a-z]+" then
    Except.error "yaml: did not find expected node content"
  else Except.ok text

/-- An example raw config whose S3 include slot holds the pattern
`[a-z]+`: a valid regular expression, but not a well-formed standalone
YAML document. -/
def sampleRawSeq : RawConfig :=
  { S3 := { IncludeRule := { NamesRE := ["[a-z]+"] },
            ExcludeRule := { NamesRE := [] } },
    IAMUsers := { IncludeRule := { NamesRE := [] },
                  ExcludeRule := { NamesRE := [] } } }

/-! ### Helper lemmas -/

theorem matchesInclude_eq_any (name : String) (l : List Regexp) :
    matchesInclude name l = l.any (fun re => MatchString re name) := by
  induction l with
  | nil => rfl
  | cons re rest ih =>
    simp only [matchesInclude, List.any_cons]
    by_cases h : MatchString re name
    · simp [h]
    · simp [h, ih]

theorem matchesExclude_eq_not_any (name : String) (l : List Regexp) :
    matchesExclude name l = !(l.any (fun re => MatchString re name)) := by
  induction l with
  | nil => rfl
  | cons re rest ih =>
    simp only [matchesExclude, List.any_cons]
    by_cases h : MatchString re name
    · simp [h]
    · simp [h, ih]

theorem matchesExclude_eq_true_iff (name : String) (l : List Regexp) :
    matchesExclude name l = true ↔ ∀ re ∈ l, MatchString re name = false := by
  rw [matchesExclude_eq_not_any]
  simp [List.any_eq_true]

theorem matchesInclude_eq_true_iff (name : String) (l : List Regexp) :
    matchesInclude name l = true ↔ ∃ re ∈ l, MatchString re name = true := by
  rw [matchesInclude_eq_any]
  simp [List.any_eq_true]

theorem ShouldInclude_true_iff (name : String) (inc exc : List Regexp) :
    ShouldInclude name inc exc = true ↔
      ((0 < inc.length → ∃ re ∈ inc, MatchString re name = true) ∧
        ∀ re ∈ exc, MatchString re name = false) := by
  unfold ShouldInclude
  by_cases hi : inc.length > 0
  · rw [if_pos hi]
    by_cases hm : matchesInclude name inc = true
    · rw [if_pos hm, matchesExclude_eq_true_iff]
      exact ⟨fun h => ⟨fun _ => (matchesInclude_eq_true_iff name inc).mp hm, h⟩,
        fun h => h.2⟩
    · rw [if_neg hm]
      constructor
      · intro h; cases h
      · rintro ⟨h1, _⟩
        exact absurd ((matchesInclude_eq_true_iff name inc).mpr (h1 hi)) hm
  · rw [if_neg hi]
    by_cases he : exc.length > 0
    · rw [if_pos he, matchesExclude_eq_true_iff]
      exact ⟨fun h => ⟨fun h0 => absurd h0 hi, h⟩, fun h => h.2⟩
    · rw [if_neg he]
      have hexc : exc = [] := List.length_eq_zero.mp (Nat.eq_zero_of_not_pos he)
      subst hexc
      simp only [List.not_mem_nil, false_implies, implies_true, and_true, true_iff]
      exact fun h0 => absurd h0 hi

/-! ### Claims about ShouldInclude -/

/-- C1: for every name and every non-empty include list with at least
one pattern matching the name, `ShouldInclude` returns `true` if and
only if the name matches no pattern of the exclude list (an exclude
match overrides the include match and forces `false`). -/
theorem shouldInclude_exclude_overrides (name : String)
    (inc exc : List Regexp) (hne : 0 < inc.length)
    (hmatch : ∃ re ∈ inc, MatchString re name = true) :
    ShouldInclude name inc exc = true ↔
      ∀ re ∈ exc, MatchString re name = false := by
  rw [ShouldInclude_true_iff]
  exact ⟨fun h => h.2, fun h => ⟨fun _ => hmatch, h⟩⟩

/-- Witness for C1 at a concrete input: `foo` matches the include
pattern and no exclude pattern, so it is included. -/
theorem shouldInclude_exclude_overrides_witness :
    ShouldInclude "foo" [reStr "foo"] [reStr "bar"] = true :=
  (shouldInclude_exclude_overrides "foo" [reStr "foo"] [reStr "bar"]
    (by decide)
    ⟨reStr "foo", List.mem_singleton.mpr rfl, by decide⟩).mpr (by
      intro re hre
      rw [List.mem_singleton] at hre
      subst hre
      decide)

/-- C2: for every name and every non-empty include list none of whose
patterns match the name, `ShouldInclude` returns `false`, whatever the
exclude list is. -/
theorem shouldInclude_no_include_match (name : String)
    (inc exc : List Regexp) (hne : 0 < inc.length)
    (hno : ∀ re ∈ inc, MatchString re name = false) :
    ShouldInclude name inc exc = false := by
  cases hb : ShouldInclude name inc exc with
  | false => rfl
  | true =>
    obtain ⟨re, hre, hm⟩ := ((ShouldInclude_true_iff name inc exc).mp hb).1 hne
    rw [hno re hre] at hm
    cases hm

/-- Witness for C2 at a concrete input: `baz` matches no include
pattern, so it is rejected. -/
theorem shouldInclude_no_include_match_witness :
    ShouldInclude "baz" [reStr "foo"] [reStr "bar"] = false :=
  shouldInclude_no_include_match "baz" [reStr "foo"] [reStr "bar"]
    (by decide) (by
      intro re hre
      rw [List.mem_singleton] at hre
      subst hre
      decide)

/-- C3: for every name, with an empty include list and a non-empty
exclude list, `ShouldInclude` returns `false` exactly when the name
matches at least one exclude pattern, and `true` otherwise. -/
theorem shouldInclude_only_excludes (name : String) (exc : List Regexp)
    (hne : 0 < exc.length) :
    ShouldInclude name [] exc = false ↔
      ∃ re ∈ exc, MatchString re name = true := by
  rw [← Bool.not_eq_true, ShouldInclude_true_iff]
  simp only [List.length_nil, Nat.lt_irrefl, false_implies, true_and,
    not_forall, Bool.not_eq_false, exists_prop]

/-- Witness for C3 at a concrete input: `bar` matches the exclude
pattern, so it is rejected. -/
theorem shouldInclude_only_excludes_witness :
    ShouldInclude "bar" [] [reStr "bar"] = false :=
  (shouldInclude_only_excludes "bar" [reStr "bar"] (by decide)).mpr
    ⟨reStr "bar", List.mem_singleton.mpr rfl, by decide⟩

/-- C4: for every name, with both rule lists empty, `ShouldInclude`
returns `true` (default allow). -/
theorem shouldInclude_default_allow (name : String) :
    ShouldInclude name [] [] = true := rfl

theorem any_perm_eq {α : Type} {l1 l2 : List α} (p : α → Bool)
    (h : l1.Perm l2) : l1.any p = l2.any p := by
  rw [Bool.eq_iff_iff, List.any_eq_true, List.any_eq_true]
  exact ⟨fun ⟨x, hx, hp⟩ => ⟨x, h.mem_iff.mp hx, hp⟩,
    fun ⟨x, hx, hp⟩ => ⟨x, h.mem_iff.mpr hx, hp⟩⟩

/-- C7: `ShouldInclude` is invariant under permutation of either
pattern list: only the set of matching patterns matters, not their
order. -/
theorem shouldInclude_perm_invariant (name : String)
    (inc inc2 exc exc2 : List Regexp)
    (hi : inc.Perm inc2) (he : exc.Perm exc2) :
    ShouldInclude name inc exc = ShouldInclude name inc2 exc2 := by
  unfold ShouldInclude
  rw [hi.length_eq, he.length_eq, matchesInclude_eq_any,
    matchesInclude_eq_any, any_perm_eq _ hi, matchesExclude_eq_not_any,
    matchesExclude_eq_not_any, any_perm_eq _ he]

/-- Witness for C7 at a concrete input: swapping the two include
patterns leaves the decision unchanged. -/
theorem shouldInclude_perm_invariant_witness :
    ShouldInclude "foo" [reStr "foo", reStr "bar"] [reStr "baz"] =
      ShouldInclude "foo" [reStr "bar", reStr "foo"] [reStr "baz"] :=
  shouldInclude_perm_invariant "foo" _ _ _ _
    (List.Perm.swap (reStr "bar") (reStr "foo") [])
    (List.Perm.refl [reStr "baz"])

/-- C10: `ShouldInclude` is antitone in the exclude list: if the name
is included under an exclude list extended with additional patterns,
it is included under the original exclude list; adding exclude
patterns can only flip a decision from `true` to `false`. -/
theorem shouldInclude_exclude_antitone (name : String)
    (inc E extra : List Regexp)
    (h : ShouldInclude name inc (E ++ extra) = true) :
    ShouldInclude name inc E = true := by
  rw [ShouldInclude_true_iff] at h ⊢
  exact ⟨h.1, fun re hre => h.2 re (List.mem_append_left extra hre)⟩

/-- Witness for C10 at a concrete input: `foo` is included under the
extended exclude list `[] ++ [reStr "bar"]`, hence under the empty
one. -/
theorem shouldInclude_exclude_antitone_witness :
    ShouldInclude "foo" [reStr "foo"] [] = true :=
  shouldInclude_exclude_antitone "foo" [reStr "foo"] [] [reStr "bar"]
    (by decide)

/-! ### Loader lemmas -/

theorem appendRegex_ok_iff (compile : String → Except String Regexp)
    (acc : List Regexp) (ps : List String) :
    (∃ res, appendRegex compile acc ps = Except.ok res) ↔
      ∀ p ∈ ps, ∃ re, compile p = Except.ok re := by
  induction ps generalizing acc with
  | nil =>
    simp only [List.not_mem_nil, false_implies, implies_true, iff_true]
    exact ⟨acc, rfl⟩
  | cons q rest ih =>
    simp only [List.mem_cons]
    constructor
    · rintro ⟨res, hres⟩ p hp
      unfold appendRegex at hres
      cases hq : compile q with
      | error e => rw [hq] at hres; simp at hres
      | ok re =>
        rw [hq] at hres
        rcases hp with rfl | hp
        · exact ⟨re, hq⟩
        · exact (ih (acc ++ [re])).mp ⟨res, hres⟩ p hp
    · intro h
      obtain ⟨re, hre⟩ := h q (Or.inl rfl)
      obtain ⟨res, hres⟩ :=
        (ih (acc ++ [re])).mpr (fun p hp => h p (Or.inr hp))
      refine ⟨res, ?_⟩
      unfold appendRegex
      rw [hre]
      exact hres

theorem appendRegex_eq_map (unmarshal : String → Except String String)
    (compile : String → Except String Regexp)
    (acc : List Regexp) (ps : List String)
    (hid : ∀ p ∈ ps, unmarshal p = Except.ok p) :
    appendRegex compile acc ps =
      (unmarshalNamesRE unmarshal compile ps).map (fun res => acc ++ res) := by
  induction ps generalizing acc with
  | nil => simp [appendRegex, unmarshalNamesRE, Except.map]
  | cons q rest ih =>
    have hq0 : unmarshal q = Except.ok q := hid q (List.mem_cons_self q rest)
    cases hq : compile q with
    | error e =>
      simp only [appendRegex, unmarshalNamesRE, Expression.UnmarshalText,
        hq0, hq]
      rfl
    | ok re =>
      simp only [appendRegex, unmarshalNamesRE, Expression.UnmarshalText,
        hq0, hq]
      rw [ih (acc ++ [re]) (fun p hp => hid p (List.mem_cons_of_mem q hp))]
      cases hr : unmarshalNamesRE unmarshal compile rest with
      | error e => rfl
      | ok res => simp [Except.map]

theorem appendRegex_nil_eq_unmarshal (unmarshal : String → Except String String)
    (compile : String → Except String Regexp)
    (ps : List String)
    (hid : ∀ p ∈ ps, unmarshal p = Except.ok p) :
    appendRegex compile [] ps = unmarshalNamesRE unmarshal compile ps := by
  rw [appendRegex_eq_map unmarshal compile [] ps hid]
  cases unmarshalNamesRE unmarshal compile ps with
  | error e => rfl
  | ok res => simp [Except.map]

theorem GetConfig_ok_iff (compile : String → Except String Regexp)
    (raw : RawConfig) :
    (∃ c, GetConfig compile raw = Except.ok c) ↔
      ∀ slot ∈ rawSlots raw, ∀ p ∈ slot, ∃ re, compile p = Except.ok re := by
  constructor
  · rintro ⟨c, hc⟩ slot hslot p hp
    unfold GetConfig at hc
    cases h1 : appendRegex compile [] raw.S3.IncludeRule.NamesRE with
    | error e => rw [h1] at hc; simp at hc
    | ok r1 =>
      rw [h1] at hc
      cases h2 : appendRegex compile [] raw.S3.ExcludeRule.NamesRE with
      | error e => rw [h2] at hc; simp at hc
      | ok r2 =>
        rw [h2] at hc
        cases h3 : appendRegex compile [] raw.IAMUsers.IncludeRule.NamesRE with
        | error e => rw [h3] at hc; simp at hc
        | ok r3 =>
          rw [h3] at hc
          cases h4 : appendRegex compile [] raw.IAMUsers.ExcludeRule.NamesRE with
          | error e => rw [h4] at hc; simp at hc
          | ok r4 =>
            simp only [rawSlots, List.mem_cons, List.not_mem_nil,
              or_false] at hslot
            rcases hslot with rfl | rfl | rfl | rfl
            · exact (appendRegex_ok_iff compile [] _).mp ⟨r1, h1⟩ p hp
            · exact (appendRegex_ok_iff compile [] _).mp ⟨r2, h2⟩ p hp
            · exact (appendRegex_ok_iff compile [] _).mp ⟨r3, h3⟩ p hp
            · exact (appendRegex_ok_iff compile [] _).mp ⟨r4, h4⟩ p hp
  · intro h
    obtain ⟨r1, h1⟩ := (appendRegex_ok_iff compile [] _).mpr
      (h raw.S3.IncludeRule.NamesRE (by simp [rawSlots]))
    obtain ⟨r2, h2⟩ := (appendRegex_ok_iff compile [] _).mpr
      (h raw.S3.ExcludeRule.NamesRE (by simp [rawSlots]))
    obtain ⟨r3, h3⟩ := (appendRegex_ok_iff compile [] _).mpr
      (h raw.IAMUsers.IncludeRule.NamesRE (by simp [rawSlots]))
    obtain ⟨r4, h4⟩ := (appendRegex_ok_iff compile [] _).mpr
      (h raw.IAMUsers.ExcludeRule.NamesRE (by simp [rawSlots]))
    refine ⟨{ S3 := { IncludeRule := { NamesRE := r1 },
                      ExcludeRule := { NamesRE := r2 } },
              IAMUsers := { IncludeRule := { NamesRE := r3 },
                            ExcludeRule := { NamesRE := r4 } } }, ?_⟩
    simp only [GetConfig, h1, h2, h3, h4]

theorem GetConfig_eq_unmarshalText (unmarshal : String → Except String String)
    (compile : String → Except String Regexp) (raw : RawConfig)
    (hid : ∀ slot ∈ rawSlots raw, ∀ p ∈ slot, unmarshal p = Except.ok p) :
    GetConfig compile raw = GetConfigUnmarshalText unmarshal compile raw := by
  have e1 := appendRegex_nil_eq_unmarshal unmarshal compile
    raw.S3.IncludeRule.NamesRE (hid _ (by simp [rawSlots]))
  have e2 := appendRegex_nil_eq_unmarshal unmarshal compile
    raw.S3.ExcludeRule.NamesRE (hid _ (by simp [rawSlots]))
  have e3 := appendRegex_nil_eq_unmarshal unmarshal compile
    raw.IAMUsers.IncludeRule.NamesRE (hid _ (by simp [rawSlots]))
  have e4 := appendRegex_nil_eq_unmarshal unmarshal compile
    raw.IAMUsers.ExcludeRule.NamesRE (hid _ (by simp [rawSlots]))
  simp only [GetConfig, GetConfigUnmarshalText, e1, e2, e3, e4]

/-! ### Claims about the loaders -/

/-- C5: whenever one of the four rule slots of the raw config holds a
pattern that fails to compile, `GetConfig` returns an error and no
configuration (no partial result). -/
theorem getConfig_invalid_pattern_errors
    (compile : String → Except String Regexp) (raw : RawConfig)
    (slot : List String) (hslot : slot ∈ rawSlots raw)
    (p : String) (hp : p ∈ slot)
    (hfail : ∀ re, compile p ≠ Except.ok re) :
    ∃ e, GetConfig compile raw = Except.error e := by
  cases hg : GetConfig compile raw with
  | error e => exact ⟨e, rfl⟩
  | ok c =>
    obtain ⟨re, hre⟩ :=
      (GetConfig_ok_iff compile raw).mp ⟨c, hg⟩ slot hslot p hp
    exact absurd hre (hfail re)

/-- Witness for C5 at a concrete input: the invalid pattern `(` in the
S3 exclude slot aborts the load. -/
theorem getConfig_invalid_pattern_errors_witness :
    ∃ e, GetConfig sampleCompile sampleRawBad = Except.error e :=
  getConfig_invalid_pattern_errors sampleCompile sampleRawBad
    sampleRawBad.S3.ExcludeRule.NamesRE (by simp [rawSlots]) "("
    (by simp [sampleRawBad]) (by
      intro re h
      simp [sampleCompile] at h)

/-- C6: on a well-formed raw config (every present pattern compiles),
`GetConfig` succeeds, and every slot whose raw pattern list is empty
(an omitted include section, exclude section or `names_regex` key)
yields an empty compiled pattern list. -/
theorem getConfig_omitted_sections_empty
    (compile : String → Except String Regexp) (raw : RawConfig)
    (hok : ∀ slot ∈ rawSlots raw, ∀ p ∈ slot, ∃ re, compile p = Except.ok re) :
    ∃ c, GetConfig compile raw = Except.ok c ∧
      (raw.S3.IncludeRule.NamesRE = [] → c.S3.IncludeRule.NamesRE = []) ∧
      (raw.S3.ExcludeRule.NamesRE = [] → c.S3.ExcludeRule.NamesRE = []) ∧
      (raw.IAMUsers.IncludeRule.NamesRE = [] →
        c.IAMUsers.IncludeRule.NamesRE = []) ∧
      (raw.IAMUsers.ExcludeRule.NamesRE = [] →
        c.IAMUsers.ExcludeRule.NamesRE = []) := by
  obtain ⟨r1, h1⟩ := (appendRegex_ok_iff compile [] _).mpr
    (hok raw.S3.IncludeRule.NamesRE (by simp [rawSlots]))
  obtain ⟨r2, h2⟩ := (appendRegex_ok_iff compile [] _).mpr
    (hok raw.S3.ExcludeRule.NamesRE (by simp [rawSlots]))
  obtain ⟨r3, h3⟩ := (appendRegex_ok_iff compile [] _).mpr
    (hok raw.IAMUsers.IncludeRule.NamesRE (by simp [rawSlots]))
  obtain ⟨r4, h4⟩ := (appendRegex_ok_iff compile [] _).mpr
    (hok raw.IAMUsers.ExcludeRule.NamesRE (by simp [rawSlots]))
  refine ⟨{ S3 := { IncludeRule := { NamesRE := r1 },
                    ExcludeRule := { NamesRE := r2 } },
            IAMUsers := { IncludeRule := { NamesRE := r3 },
                          ExcludeRule := { NamesRE := r4 } } },
    ?_, ?_, ?_, ?_, ?_⟩
  · simp only [GetConfig, h1, h2, h3, h4]
  · intro hE
    rw [hE] at h1
    simp only [appendRegex, Except.ok.injEq] at h1
    exact h1.symm
  · intro hE
    rw [hE] at h2
    simp only [appendRegex, Except.ok.injEq] at h2
    exact h2.symm
  · intro hE
    rw [hE] at h3
    simp only [appendRegex, Except.ok.injEq] at h3
    exact h3.symm
  · intro hE
    rw [hE] at h4
    simp only [appendRegex, Except.ok.injEq] at h4
    exact h4.symm

/-- Witness for C6 at a concrete input: `sampleRaw` has both IAMUsers
sections omitted; the load succeeds and those compiled lists are
empty. -/
theorem getConfig_omitted_sections_empty_witness :
    ∃ c, GetConfig sampleCompile sampleRaw = Except.ok c ∧
      (sampleRaw.S3.IncludeRule.NamesRE = [] →
        c.S3.IncludeRule.NamesRE = []) ∧
      (sampleRaw.S3.ExcludeRule.NamesRE = [] →
        c.S3.ExcludeRule.NamesRE = []) ∧
      (sampleRaw.IAMUsers.IncludeRule.NamesRE = [] →
        c.IAMUsers.IncludeRule.NamesRE = []) ∧
      (sampleRaw.IAMUsers.ExcludeRule.NamesRE = [] →
        c.IAMUsers.ExcludeRule.NamesRE = []) :=
  getConfig_omitted_sections_empty sampleCompile sampleRaw (by
    intro slot hslot p hp
    simp only [rawSlots, sampleRaw, List.mem_cons, List.not_mem_nil,
      or_false] at hslot
    rcases hslot with rfl | rfl | rfl | rfl
    · rw [List.mem_singleton] at hp; subst hp; exact ⟨reStr "foo", rfl⟩
    · rw [List.mem_singleton] at hp; subst hp; exact ⟨reStr "bar", rfl⟩
    · exact absurd hp (List.not_mem_nil p)
    · exact absurd hp (List.not_mem_nil p))

/-- C8: two loads of the same raw config produce behaviourally
identical configurations: for every name and every category, the
`ShouldInclude` decision over the two pattern-list pairs agrees. -/
theorem getConfig_roundtrip_consistent
    (compile : String → Except String Regexp) (raw : RawConfig)
    (c1 c2 : Config)
    (h1 : GetConfig compile raw = Except.ok c1)
    (h2 : GetConfig compile raw = Except.ok c2) :
    ∀ name : String,
      ShouldInclude name c1.S3.IncludeRule.NamesRE
          c1.S3.ExcludeRule.NamesRE =
        ShouldInclude name c2.S3.IncludeRule.NamesRE
          c2.S3.ExcludeRule.NamesRE ∧
      ShouldInclude name c1.IAMUsers.IncludeRule.NamesRE
          c1.IAMUsers.ExcludeRule.NamesRE =
        ShouldInclude name c2.IAMUsers.IncludeRule.NamesRE
          c2.IAMUsers.ExcludeRule.NamesRE := by
  rw [h1] at h2
  cases h2
  exact fun name => ⟨rfl, rfl⟩

/-- Witness for C8 at a concrete input: loading `sampleRaw` twice
gives `sampleConfig` both times, and the decisions for `foo` agree. -/
theorem getConfig_roundtrip_consistent_witness :
    ShouldInclude "foo" sampleConfig.S3.IncludeRule.NamesRE
        sampleConfig.S3.ExcludeRule.NamesRE =
      ShouldInclude "foo" sampleConfig.S3.IncludeRule.NamesRE
        sampleConfig.S3.ExcludeRule.NamesRE ∧
    ShouldInclude "foo" sampleConfig.IAMUsers.IncludeRule.NamesRE
        sampleConfig.IAMUsers.ExcludeRule.NamesRE =
      ShouldInclude "foo" sampleConfig.IAMUsers.IncludeRule.NamesRE
        sampleConfig.IAMUsers.ExcludeRule.NamesRE :=
  getConfig_roundtrip_consistent sampleCompile sampleRaw
    sampleConfig sampleConfig rfl rfl "foo"

/-- C9 counterexample: the two loaders are not equivalent as claimed.
On the same resolved content — the S3 include slot holding `[a-z]+`, a
pattern that compiles fine but is not a standalone YAML document — the
raw-then-compiled loader succeeds while the `UnmarshalText`-based
loader fails in its nested per-scalar re-parse, so it is not the case
that the two either both error or both succeed. -/
theorem getConfig_loaders_diverge :
    (∃ c, GetConfig sampleCompile sampleRawSeq = Except.ok c) ∧
    ∃ e, GetConfigUnmarshalText sampleUnmarshal sampleCompile sampleRawSeq =
      Except.error e :=
  ⟨⟨{ S3 := { IncludeRule := { NamesRE := [reStr "[a-z]+"] },
              ExcludeRule := { NamesRE := [] } },
      IAMUsers := { IncludeRule := { NamesRE := [] },
                    ExcludeRule := { NamesRE := [] } } }, rfl⟩,
    ⟨"yaml: did not find expected node content", rfl⟩⟩

/-- C9, amended: the two loaders are equivalent whenever the nested
per-scalar YAML re-parse of `Expression.UnmarshalText` returns every
pattern string of the four slots unchanged (in particular whenever
each pattern is a YAML document denoting itself): then, on identical
resolved content, either both loaders fail, or both succeed with
configurations making identical `ShouldInclude` decisions for every
name and category.  Without that proviso the `UnmarshalText` loader
can fail where the raw-then-compiled loader succeeds
(`getConfig_loaders_diverge`). -/
theorem getConfig_loaders_equivalent
    (unmarshal : String → Except String String)
    (compile : String → Except String Regexp) (raw : RawConfig)
    (hid : ∀ slot ∈ rawSlots raw, ∀ p ∈ slot, unmarshal p = Except.ok p) :
    ((∃ e, GetConfig compile raw = Except.error e) ↔
      (∃ e, GetConfigUnmarshalText unmarshal compile raw = Except.error e)) ∧
    (∀ c1 c2, GetConfig compile raw = Except.ok c1 →
      GetConfigUnmarshalText unmarshal compile raw = Except.ok c2 →
      ∀ name : String,
        ShouldInclude name c1.S3.IncludeRule.NamesRE
            c1.S3.ExcludeRule.NamesRE =
          ShouldInclude name c2.S3.IncludeRule.NamesRE
            c2.S3.ExcludeRule.NamesRE ∧
        ShouldInclude name c1.IAMUsers.IncludeRule.NamesRE
            c1.IAMUsers.ExcludeRule.NamesRE =
          ShouldInclude name c2.IAMUsers.IncludeRule.NamesRE
            c2.IAMUsers.ExcludeRule.NamesRE) := by
  have h := GetConfig_eq_unmarshalText unmarshal compile raw hid
  constructor
  · rw [h]
  · intro c1 c2 h1 h2 name
    rw [h, h2] at h1
    cases h1
    exact ⟨rfl, rfl⟩

/-- Witness for the amended C9 at a concrete input: `sampleUnmarshal`
re-parses every pattern of `sampleRaw` to itself, both loaders map
`sampleRaw` to `sampleConfig`, and the decisions for `bar` agree. -/
theorem getConfig_loaders_equivalent_witness :
    ShouldInclude "bar" sampleConfig.S3.IncludeRule.NamesRE
        sampleConfig.S3.ExcludeRule.NamesRE =
      ShouldInclude "bar" sampleConfig.S3.IncludeRule.NamesRE
        sampleConfig.S3.ExcludeRule.NamesRE ∧
    ShouldInclude "bar" sampleConfig.IAMUsers.IncludeRule.NamesRE
        sampleConfig.IAMUsers.ExcludeRule.NamesRE =
      ShouldInclude "bar" sampleConfig.IAMUsers.IncludeRule.NamesRE
        sampleConfig.IAMUsers.ExcludeRule.NamesRE :=
  (getConfig_loaders_equivalent sampleUnmarshal sampleCompile sampleRaw (by
      intro slot hslot p hp
      simp only [rawSlots, sampleRaw, List.mem_cons, List.not_mem_nil,
        or_false] at hslot
      rcases hslot with rfl | rfl | rfl | rfl
      · rw [List.mem_singleton] at hp; subst hp; rfl
      · rw [List.mem_singleton] at hp; subst hp; rfl
      · exact absurd hp (List.not_mem_nil p)
      · exact absurd hp (List.not_mem_nil p))).2
    sampleConfig sampleConfig rfl rfl "bar"
